import Mathlib

/-!
Shallow embedding of the cloud backup/restore orchestrator
(pkg/data/cloud.go of the tinker repository) and proofs about it.

Go strings are modelled as Lean `String`; remote side effects (pod
listing, annotation updates, pod deletion, remote command execution)
are modelled by an explicit environment record `Env`, and each
operation returns the list of externally visible events it performs
together with its result.  The remote-exec gateway retry loop is
modelled separately (`execGw`) over an attempt-indexed channel.
-/

/-- The component enumeration (TiDB, PD, TiKV) from cloud.go. -/
inductive component where
  | TiDB : component
  | PD : component
  | TiKV : component
  deriving DecidableEq, Repr

/-- componentToName map from cloud.go. -/
def componentToName (c : component) : String :=
  match c with
  | component.TiDB => "tidb"
  | component.PD => "pd"
  | component.TiKV => "tikv"

def BaseDir : String := "/var/lib/"

def MaxRetry : Nat := 5

def DebugLabel : String := "runmode"

def DebugValue : String := "debug"

/-- component.String() from cloud.go. -/
def component.name (c : component) : String := componentToName c

/-- component.BataDir() from cloud.go: BaseDir + c.String(). -/
def component.BataDir (c : component) : String := BaseDir ++ c.name

/-- component.BackExecCmd from cloud.go: builds the backup shell script
(rm -rf backDir; mkdir -p backDir; cd dir; cp everything except entries
matching bat|space_placeholder_file into backDir, verbosely), writes it
to dir/back_version.sh and runs it with sh. -/
def component.BackExecCmd (c : component) (version : String) : String :=
  let dir := c.BataDir
  let backDir := dir ++ "/" ++ version ++ ".bat"
  let shFile := dir ++ "/back_" ++ version ++ ".sh"
  let steps := [
    "rm -rf " ++ backDir,
    "mkdir -p " ++ backDir,
    "cd " ++ dir ++ ";/bin/cp -rf \\\x60ls -A | grep -vE \x27bat|space_placeholder_file\x27\\\x60 " ++ backDir ++ " -v"]
  let cmd := String.intercalate ";" steps
  "echo \"" ++ cmd ++ "\" > " ++ shFile ++ ";sh " ++ shFile

/-- component.RestoreExecCmd from cloud.go. -/
def component.RestoreExecCmd (c : component) (version : String) : String :=
  let dir := BaseDir ++ c.name
  let shFile := dir ++ "/restore_" ++ version ++ ".sh"
  let backDir := dir ++ "/" ++ version ++ ".bat"
  let steps := [
    "cd " ++ dir ++ ";rm -rf \\\x60ls -A | grep -vE \x27bat|space_placeholder_file\x27 \\\x60 -v",
    "/bin/cp -rf " ++ backDir ++ "/* " ++ dir ++ " -v"]
  let cmd := String.intercalate ";" steps
  "echo \"" ++ cmd ++ "\" > " ++ shFile ++ ";sh " ++ shFile

/-! The remote-exec gateway (CloudOperator.exec from cloud.go): a loop of
at most MaxRetry attempts over the underlying exec channel; a failed
attempt is followed by a one-minute sleep; the first successful attempt
returns its captured stdout; exhausting the loop returns an error. -/

/-- An externally visible event of the gateway retry loop: a call of the
underlying exec channel (with its attempt index) or a one-minute sleep. -/
inductive GEvent where
  | call : Nat → GEvent
  | sleepMin : GEvent
  deriving DecidableEq, Repr

/-- The retry loop of CloudOperator.exec, starting at attempt index i with
the given number of remaining iterations.  `channel j` is the result of
the j-th call of the underlying remote exec channel. -/
def execAttempts (channel : Nat → Except String String) (i fuel : Nat) :
    List GEvent × Except String String :=
  match fuel with
  | 0 => ([], Except.error "exec failed")
  | f + 1 =>
    match channel i with
    | Except.ok out => ([GEvent.call i], Except.ok out)
    | Except.error _ =>
      let r := execAttempts channel (i + 1) f
      (GEvent.call i :: GEvent.sleepMin :: r.1, r.2)

/-- CloudOperator.exec from cloud.go: the gateway with MaxRetry attempts. -/
def execGw (channel : Nat → Except String String) :
    List GEvent × Except String String :=
  execAttempts channel 0 MaxRetry

/-- The event trace of n consecutive failed attempts starting at index i:
each call is followed by the one-minute sleep. -/
def failRun (i : Nat) : Nat → List GEvent
  | 0 => []
  | n + 1 => GEvent.call i :: GEvent.sleepMin :: failRun (i + 1) n

/-- Number of channel calls in a gateway trace. -/
def countCalls (tr : List GEvent) : Nat :=
  tr.countP fun e => match e with | GEvent.call _ => true | _ => false

/-! Go string primitives used by cloud.go, modelled over the character
lists underlying Lean strings. -/

/-- Whether a character list contains the two-character sequence CR LF
(the separator "\r\n" used by strings.Split in cloud.go). -/
def containsCRLF : List Char → Bool
  | [] => false
  | [_] => false
  | c :: c2 :: rest =>
    if c = '\r' ∧ c2 = '\n' then true else containsCRLF (c2 :: rest)

/-- Splitting worker for Go strings.Split(s, "\r\n"): scans left to right,
cutting at each non-overlapping occurrence of CR LF; acc holds the
characters of the current field in reverse. -/
def splitCRLFAux : List Char → List Char → List (List Char)
  | [], acc => [acc.reverse]
  | [c], acc => [acc.reverse ++ [c]]
  | c :: c2 :: rest, acc =>
    if c = '\r' ∧ c2 = '\n' then acc.reverse :: splitCRLFAux rest []
    else splitCRLFAux (c2 :: rest) (c :: acc)

/-- Go strings.Split(s, "\r\n") on Lean strings. -/
def splitCRLF (s : String) : List String :=
  (splitCRLFAux s.data []).map fun l => String.mk l

/-- Go strings.TrimSuffix: drops the suffix when present, otherwise
returns the string unchanged. -/
def goTrimSuffix (s suffix : String) : String :=
  if suffix.data.isSuffixOf s.data then
    String.mk (s.data.take (s.data.length - suffix.data.length))
  else s

/-- The numeric value of an ASCII digit. -/
def digitVal (c : Char) : Option Nat :=
  if 48 ≤ c.toNat ∧ c.toNat ≤ 57 then some (c.toNat - 48) else none

/-- Decimal parsing of a digit run; any non-digit character fails. -/
def parseNatAux : List Char → Nat → Option Nat
  | [], acc => some acc
  | c :: rest, acc =>
    match digitVal c with
    | none => none
    | some d => parseNatAux rest (acc * 10 + d)

/-- Go strconv.Atoi with the error ignored (as in cloud.go's
checkStatus, `count, _ := strconv.Atoi(...)`): an optional sign followed
by digits; empty or malformed input yields 0. -/
def goAtoi (s : String) : Int :=
  match s.data with
  | [] => 0
  | '+' :: rest =>
    if rest = [] then 0 else (parseNatAux rest 0).elim 0 Int.ofNat
  | '-' :: rest =>
    if rest = [] then 0 else (parseNatAux rest 0).elim 0 fun n => -(n : Int)
  | l => (parseNatAux l 0).elim 0 Int.ofNat

/-! The orchestrator's environment: everything cloud.go observes or
mutates through the Kubernetes client and the (already retried) exec
gateway.  Re-resolved state is deterministic within one call. -/

/-- A pod as cloud.go sees it: its name and whether its phase is
PodRunning. -/
structure Pod where
  name : String
  running : Bool
  deriving DecidableEq, Repr

/-- The external world of one orchestrator call: label-selector pod
listing per component, namespace-wide pod listing, the outcome of a pod
annotation update, the outcome of a pod deletion, and the result of the
exec gateway for a (pod, container, argv) invocation. -/
structure Env where
  listPods : component → Except String (List Pod)
  listAllPods : Except String (List Pod)
  updatePod : String → Except String Unit
  deleteRes : String → Except String Unit
  exec : String → String → List String → Except String String

/-- Externally visible events of the orchestrator operations, in program
order.  A `task` event records a spawned per-pod exec goroutine of
Back/Restore together with the success of its exec; `barrier` is a
WaitGroup Wait() call. -/
inductive Event where
  | listAll : Event
  | listRole : component → Event
  | annotate : String → Event
  | clearAnn : String → Event
  | kill : String → Event
  | delPod : String → Event
  | precheck : component → Event
  | task : component → String → Bool → Event
  | barrier : Event
  deriving DecidableEq, Repr

def isOkB : Except String String → Bool
  | Except.ok _ => true
  | Except.error _ => false

def isOkU : Except String Unit → Bool
  | Except.ok _ => true
  | Except.error _ => false

/-- The status probe command of checkStatus in cloud.go for non-TiKV
components. -/
def psCmdDefault : String := "ps|awk \x27\x7bprint NF\x7d\x27"

/-- The status probe command of checkStatus in cloud.go for TiKV. -/
def psCmdTiKV : String := "ps -Cp 1|awk \x27\x7bprint NF\x7d\x27"

/-- The argv checkStatus passes to the gateway: the default probe,
overridden for TiKV. -/
def statusCmd (name : component) : List String :=
  ["sh", "-c", if name = component.TiKV then psCmdTiKV else psCmdDefault]

/-- The per-pod loop of CloudOperator.checkStatus: probes each running
pod, splits the captured stdout on CR LF and reads index 1 of the split
result.  In Go that index access is unchecked; `none` models the
index-out-of-range panic when the split has fewer than two elements. -/
def checkStatusLoop (env : Env) (name : component) (status : Bool) :
    List Pod → Option Bool
  | [] => some true
  | pod :: rest =>
    if pod.running then
      match env.exec pod.name name.name (statusCmd name) with
      | Except.error _ => some false
      | Except.ok result =>
        match List.get? (splitCRLF result) 1 with
        | none => none
        | some second =>
          if status = decide ((8 : Int) < goAtoi second) then
            checkStatusLoop env name status rest
          else some false
    else checkStatusLoop env name status rest

/-- CloudOperator.checkStatus from cloud.go.  A listing error yields
false; `none` models the unchecked index panic (see checkStatusLoop). -/
def checkStatus (env : Env) (name : component) (status : Bool) : Option Bool :=
  match env.listPods name with
  | Except.error _ => some false
  | Except.ok pods => checkStatusLoop env name status pods

/-- The components CloudOperator.List and Back/Restore iterate over. -/
def backupScope : List component := [component.TiKV, component.PD]

/-- The argv of the backup-directory listing probe of
CloudOperator.List. -/
def listCmd (cp : component) : List String :=
  ["sh", "-c", "ls " ++ cp.BataDir ++ "|grep bat"]

/-- Lookup in the result map of List (Go: rst[pod.Name], defaulting to
an empty slice when absent). -/
def mapGet : List (String × List String) → String → List String
  | [], _ => []
  | (k, v) :: rest, key => if k = key then v else mapGet rest key

/-- Update of the result map of List (Go: rst[pod.Name] = versions). -/
def mapSet : List (String × List String) → String → List String →
    List (String × List String)
  | [], key, v => [(key, v)]
  | (k, v0) :: rest, key, v =>
    if k = key then (key, v) :: rest else (k, v0) :: mapSet rest key v

/-- The inner loop of CloudOperator.List over the split probe output:
every non-empty line is appended after TrimSuffix(line, ".back"). -/
def listVersionsFold (dirs : String) (versions : List String) : List String :=
  (splitCRLF dirs).foldl
    (fun acc v => if 0 < v.length then acc ++ [goTrimSuffix v ".back"] else acc)
    versions

/-- The per-pod loop of CloudOperator.List for one component: an exec
error aborts the whole List with that error. -/
def listPodsLoop (env : Env) (cp : component) :
    List Pod → List (String × List String) →
    Except String (List (String × List String))
  | [], rst => Except.ok rst
  | pod :: rest, rst =>
    match env.exec pod.name cp.name (listCmd cp) with
    | Except.error e => Except.error e
    | Except.ok dirs =>
      listPodsLoop env cp rest
        (mapSet rst pod.name (listVersionsFold dirs (mapGet rst pod.name)))

/-- The per-component loop of CloudOperator.List. -/
def listCompLoop (env : Env) :
    List component → List (String × List String) →
    Except String (List (String × List String))
  | [], rst => Except.ok rst
  | cp :: rest, rst =>
    match env.listPods cp with
    | Except.error e => Except.error e
    | Except.ok pods =>
      match listPodsLoop env cp pods rst with
      | Except.error e => Except.error e
      | Except.ok rst2 => listCompLoop env rest rst2

/-- CloudOperator.List from cloud.go: the backup versions per pod for
the components in backup scope. -/
def ListOp (env : Env) : Except String (List (String × List String)) :=
  listCompLoop env backupScope []

/-- CloudOperator.checkVersion from cloud.go.  A List error is only
logged, leaving a nil map, so the loop body never runs and the function
returns true; otherwise every pod must list the requested version. -/
def checkVersion (env : Env) (version : String) : Bool :=
  match ListOp env with
  | Except.error _ => true
  | Except.ok m => m.all fun kv => kv.2.contains version

/-- CloudOperator.check from cloud.go: calls checkStatus and
checkVersion but only logs their results and returns true
unconditionally; `none` propagates the checkStatus index panic. -/
def check (env : Env) (name : component) (version : String) (status : Bool) :
    Option Bool :=
  match checkStatus env name status with
  | none => none
  | some _ =>
    let _ := checkVersion env version
    some true

/-- The shared shape of CloudOperator.Back and CloudOperator.Restore:
per component in order, run the pre-check, list the component's pods,
and spawn one exec task per listed pod on a single WaitGroup; the only
Wait() is after the loop over all components (the final `barrier`
event).  A failed pre-check or listing returns early, without any
Wait().  `none` propagates a pre-check index panic. -/
def fanOut (env : Env) (pre : component → Option Bool)
    (cmd : component → List String) :
    List component → Option (List Event × Except String Unit)
  | [] => some ([Event.barrier], Except.ok ())
  | cp :: rest =>
    match pre cp with
    | none => none
    | some false => some ([Event.precheck cp], Except.error "check failed")
    | some true =>
      match env.listPods cp with
      | Except.error e =>
        some ([Event.precheck cp, Event.listRole cp], Except.error e)
      | Except.ok pods =>
        match fanOut env pre cmd rest with
        | none => none
        | some (tr, res) =>
          some (Event.precheck cp :: Event.listRole cp ::
            (pods.map fun p =>
              Event.task cp p.name (isOkB (env.exec p.name cp.name (cmd cp))))
            ++ tr, res)

/-- CloudOperator.Back from cloud.go: pre-check is checkStatus with
expected status false (quiesced); the task command is BackExecCmd. -/
def Back (env : Env) (version : String) :
    Option (List Event × Except String Unit) :=
  fanOut env (fun cp => checkStatus env cp false)
    (fun cp => ["sh", "-c", cp.BackExecCmd version]) backupScope

/-- CloudOperator.Restore from cloud.go: pre-check is check (status and
version, results discarded); the task command is RestoreExecCmd. -/
def Restore (env : Env) (version : String) :
    Option (List Event × Except String Unit) :=
  fanOut env (fun cp => check env cp version false)
    (fun cp => ["sh", "-c", cp.RestoreExecCmd version]) backupScope

/-- The per-pod annotation loop of CloudOperator.Stop: every pod of the
namespace gets the debug annotation; the first failed update aborts with
that error. -/
def annotateLoop (env : Env) : List Pod → List Event × Except String Unit
  | [] => ([], Except.ok ())
  | p :: rest =>
    match env.updatePod p.name with
    | Except.error e => ([Event.annotate p.name], Except.error e)
    | Except.ok _ =>
      let r := annotateLoop env rest
      (Event.annotate p.name :: r.1, r.2)

/-- The per-pod loop of CloudOperator.kill: running pods get the
"kill 1" exec; a failed exec aborts with its error. -/
def killLoop (env : Env) (name : component) :
    List Pod → List Event × Except String Unit
  | [] => ([], Except.ok ())
  | p :: rest =>
    if p.running then
      match env.exec p.name name.name ["sh", "-c", "kill 1"] with
      | Except.error e => ([Event.kill p.name], Except.error e)
      | Except.ok _ =>
        let r := killLoop env name rest
        (Event.kill p.name :: r.1, r.2)
    else killLoop env name rest

/-- CloudOperator.kill from cloud.go: list the component's pods, then
kill each running one. -/
def killComp (env : Env) (name : component) : List Event × Except String Unit :=
  match env.listPods name with
  | Except.error e => ([Event.listRole name], Except.error e)
  | Except.ok pods =>
    let r := killLoop env name pods
    (Event.listRole name :: r.1, r.2)

/-- The component loop at the end of CloudOperator.Stop. -/
def killCompLoop (env : Env) : List component → List Event × Except String Unit
  | [] => ([], Except.ok ())
  | cp :: rest =>
    match killComp env cp with
    | (tr, Except.error e) => (tr, Except.error e)
    | (tr, Except.ok _) =>
      let r := killCompLoop env rest
      (tr ++ r.1, r.2)

/-- The kill order of CloudOperator.Stop. -/
def stopOrder : List component := [component.TiDB, component.TiKV, component.PD]

/-- CloudOperator.Stop from cloud.go: list all pods (an error aborts),
annotate every pod (the first failed update aborts), then kill the
components in stop order. -/
def Stop (env : Env) : List Event × Except String Unit :=
  match env.listAllPods with
  | Except.error e => ([Event.listAll], Except.error e)
  | Except.ok pods =>
    match annotateLoop env pods with
    | (tr, Except.error e) => (Event.listAll :: tr, Except.error e)
    | (tr, Except.ok _) =>
      let r := killCompLoop env stopOrder
      (Event.listAll :: tr ++ r.1, r.2)

/-- The per-pod annotation-clearing loop of CloudOperator.Start; a
failed update aborts with that error. -/
def clearLoop (env : Env) : List Pod → List Event × Except String Unit
  | [] => ([], Except.ok ())
  | p :: rest =>
    match env.updatePod p.name with
    | Except.error e => ([Event.clearAnn p.name], Except.error e)
    | Except.ok _ =>
      let r := clearLoop env rest
      (Event.clearAnn p.name :: r.1, r.2)

/-- The per-pod loop of CloudOperator.delete: every running pod is
deleted; a failed deletion aborts with its error. -/
def deleteLoop (env : Env) : List Pod → List Event × Except String Unit
  | [] => ([], Except.ok ())
  | p :: rest =>
    if p.running then
      match env.deleteRes p.name with
      | Except.error e => ([Event.delPod p.name], Except.error e)
      | Except.ok _ =>
        let r := deleteLoop env rest
        (Event.delPod p.name :: r.1, r.2)
    else deleteLoop env rest

/-- CloudOperator.delete from cloud.go. -/
def deleteComp (env : Env) (name : component) :
    List Event × Except String Unit :=
  match env.listPods name with
  | Except.error e => ([Event.listRole name], Except.error e)
  | Except.ok pods =>
    let r := deleteLoop env pods
    (Event.listRole name :: r.1, r.2)

/-- The component loop at the end of CloudOperator.Start. -/
def deleteCompLoop (env : Env) :
    List component → List Event × Except String Unit
  | [] => ([], Except.ok ())
  | cp :: rest =>
    match deleteComp env cp with
    | (tr, Except.error e) => (tr, Except.error e)
    | (tr, Except.ok _) =>
      let r := deleteCompLoop env rest
      (tr ++ r.1, r.2)

/-- The restart order of CloudOperator.Start. -/
def startOrder : List component :=
  [component.PD, component.TiKV, component.TiDB]

/-- CloudOperator.Start from cloud.go.  Note the source: a failed
namespace-wide listing is only logged, not returned; the client returns
a non-nil empty pod list alongside the error, so the annotation loop
runs over no pods and Start proceeds to the per-component delete loop. -/
def Start (env : Env) : List Event × Except String Unit :=
  let pods := match env.listAllPods with
    | Except.error _ => []
    | Except.ok pods => pods
  match clearLoop env pods with
  | (tr, Except.error e) => (Event.listAll :: tr, Except.error e)
  | (tr, Except.ok _) =>
    let r := deleteCompLoop env startOrder
    (Event.listAll :: tr ++ r.1, r.2)

/-- The component order of CloudOperator.Check. -/
def checkOrder : List component :=
  [component.TiKV, component.PD, component.TiDB]

/-- The component loop of CloudOperator.Check; `none` propagates the
checkStatus index panic. -/
def checkLoop (env : Env) : List component → Option Bool
  | [] => some true
  | cp :: rest =>
    match checkStatus env cp true with
    | none => none
    | some false => some false
    | some true => checkLoop env rest

/-- CloudOperator.Check from cloud.go. -/
def Check (env : Env) : Option Bool := checkLoop env checkOrder

/-! Trace observations used by the theorems. -/

/-- Number of exec-task events of the given component in a trace. -/
def countTasksFor (cp : component) (tr : List Event) : Nat :=
  tr.countP fun e => match e with
    | Event.task c _ _ => c == cp
    | _ => false

/-- Number of pod-listing events of the given component in a trace. -/
def countListRole (cp : component) (tr : List Event) : Nat :=
  tr.countP fun e => e == Event.listRole cp

/-- Number of barrier (WaitGroup Wait) events in a trace. -/
def countBarrier (tr : List Event) : Nat :=
  tr.countP fun e => e == Event.barrier

/-- Number of kill events in a trace. -/
def countKills (tr : List Event) : Nat :=
  tr.countP fun e => match e with | Event.kill _ => true | _ => false

/-- Number of annotation events in a trace. -/
def countAnns (tr : List Event) : Nat :=
  tr.countP fun e => match e with | Event.annotate _ => true | _ => false

/-- The component of a task event, if any. -/
def taskRole : Event → Option component
  | Event.task c _ _ => some c
  | _ => none

/-- The per-role barrier property of the specification: whenever a task
of one component precedes a task of a different component in the trace,
some barrier lies strictly between them. -/
def perRoleBarrierB (tr : List Event) : Bool :=
  (List.range tr.length).all fun i =>
    (List.range tr.length).all fun j =>
      !(decide (i < j)) ||
      match (tr.get? i).bind taskRole, (tr.get? j).bind taskRole with
      | some c1, some c2 =>
        (c1 == c2) ||
        ((List.range tr.length).any fun k =>
          decide (i < k) && decide (k < j) &&
          (tr.get? k == some Event.barrier))
      | _, _ => true

/-! Concrete environments used to evaluate the model on explicit
inputs. -/

/-- A probe stdout whose second CR-LF-separated field is "4": the pod's
supervisor command line has 4 tokens, i.e. the role counts as quiesced
(not more than 8 tokens). -/
def probeOutQuiesced : String := "x\r\n4\r\n"

/-- A probe stdout whose second CR-LF-separated field is "12": the role
counts as running (more than 8 tokens). -/
def probeOutRunning : String := "x\r\n12\r\n"

/-- Exec behaviour of a quiesced cluster with one backup set "5.2.bat"
on every pod: status probes answer with 4 tokens, backup-directory
listings answer "5.2.bat", and every other command succeeds. -/
def execQuiesced (_pod _container : String) (argv : List String) :
    Except String String :=
  match argv with
  | [_, _, c] =>
    if c = psCmdDefault ∨ c = psCmdTiKV then Except.ok probeOutQuiesced
    else if c = "ls /var/lib/tikv|grep bat" ∨ c = "ls /var/lib/pd|grep bat" then
      Except.ok "5.2.bat\r\n"
    else Except.ok "done"
  | _ => Except.ok "done"

/-- A quiesced two-role cluster: one running TiKV pod and one running PD
pod, every mutation succeeding. -/
def cEnvA : Env where
  listPods := fun cp => match cp with
    | component.TiKV => Except.ok [⟨"tikv-0", true⟩]
    | component.PD => Except.ok [⟨"pd-0", true⟩]
    | component.TiDB => Except.ok []
  listAllPods := Except.ok [⟨"tikv-0", true⟩, ⟨"pd-0", true⟩]
  updatePod := fun _ => Except.ok ()
  deleteRes := fun _ => Except.ok ()
  exec := execQuiesced

/-- A cluster whose TiKV status probe reports a running (not quiesced)
supervisor. -/
def cEnvR : Env where
  listPods := fun cp => match cp with
    | component.TiKV => Except.ok [⟨"tikv-0", true⟩]
    | component.PD => Except.ok [⟨"pd-0", true⟩]
    | component.TiDB => Except.ok []
  listAllPods := Except.ok [⟨"tikv-0", true⟩, ⟨"pd-0", true⟩]
  updatePod := fun _ => Except.ok ()
  deleteRes := fun _ => Except.ok ()
  exec := fun _ _ argv => match argv with
    | [_, _, c] =>
      if c = psCmdDefault ∨ c = psCmdTiKV then Except.ok probeOutRunning
      else Except.ok "done"
    | _ => Except.ok "done"

/-- A quiesced cluster with two TiKV pods where the remote exec on pod
"tikv-1" fails for every non-probe command. -/
def cEnvF : Env where
  listPods := fun cp => match cp with
    | component.TiKV => Except.ok [⟨"tikv-0", true⟩, ⟨"tikv-1", true⟩]
    | component.PD => Except.ok [⟨"pd-0", true⟩]
    | component.TiDB => Except.ok []
  listAllPods := Except.ok [⟨"tikv-0", true⟩, ⟨"tikv-1", true⟩, ⟨"pd-0", true⟩]
  updatePod := fun _ => Except.ok ()
  deleteRes := fun _ => Except.ok ()
  exec := fun pod _ argv => match argv with
    | [_, _, c] =>
      if c = psCmdDefault ∨ c = psCmdTiKV then Except.ok probeOutQuiesced
      else if pod = "tikv-1" then Except.error "boom"
      else Except.ok "done"
    | _ => Except.ok "done"

/-- A namespace of two pods where the annotation update of pod "b-0"
fails. -/
def cEnvStop : Env where
  listPods := fun cp => match cp with
    | component.TiKV => Except.ok [⟨"a-0", true⟩]
    | component.PD => Except.ok [⟨"b-0", true⟩]
    | component.TiDB => Except.ok []
  listAllPods := Except.ok [⟨"a-0", true⟩, ⟨"b-0", true⟩]
  updatePod := fun p => if p = "b-0" then Except.error "update failed" else Except.ok ()
  deleteRes := fun _ => Except.ok ()
  exec := execQuiesced

/-- A cluster whose namespace-wide pod listing fails while the per-role
listings succeed with one running pod each. -/
def cEnvS : Env where
  listPods := fun cp => match cp with
    | component.TiKV => Except.ok [⟨"tikv-0", true⟩]
    | component.PD => Except.ok [⟨"pd-0", true⟩]
    | component.TiDB => Except.ok [⟨"tidb-0", true⟩]
  listAllPods := Except.error "boom"
  updatePod := fun _ => Except.ok ()
  deleteRes := fun _ => Except.ok ()
  exec := execQuiesced

/-- A cluster with one running TiKV pod whose status probe succeeds with
empty stdout. -/
def cEnvP : Env where
  listPods := fun cp => match cp with
    | component.TiKV => Except.ok [⟨"tikv-0", true⟩]
    | component.PD => Except.ok []
    | component.TiDB => Except.ok []
  listAllPods := Except.ok [⟨"tikv-0", true⟩]
  updatePod := fun _ => Except.ok ()
  deleteRes := fun _ => Except.ok ()
  exec := fun _ _ _ => Except.ok ""

/-- An exec channel whose first call fails and whose later calls
succeed. -/
def chW : Nat → Except String String :=
  fun n => if n = 0 then Except.error "transport" else Except.ok "out"

/-- An exec channel that always fails. -/
def chF : Nat → Except String String := fun _ => Except.error "transport"

/-- The trace and result Back produces on cEnvA for version "5.2". -/
def trA : List Event :=
  [Event.precheck component.TiKV, Event.listRole component.TiKV,
   Event.task component.TiKV "tikv-0" true,
   Event.precheck component.PD, Event.listRole component.PD,
   Event.task component.PD "pd-0" true, Event.barrier]

/-! Lemmas about the CR-LF split. -/

lemma splitCRLFAux_nocrlf (n : Nat) :
    ∀ (s acc : List Char), s.length ≤ n → containsCRLF s = false →
    splitCRLFAux s acc = [acc.reverse ++ s] := by
  induction n with
  | zero =>
    intro s acc hlen _
    cases s with
    | nil => simp [splitCRLFAux]
    | cons c t => simp at hlen
  | succ n ih =>
    intro s acc hlen hno
    match s with
    | [] => simp [splitCRLFAux]
    | [c] => simp [splitCRLFAux]
    | c :: c2 :: rest =>
      simp only [containsCRLF] at hno
      simp only [splitCRLFAux]
      by_cases h : c = '\r' ∧ c2 = '\n'
      · simp [h] at hno
      · rw [if_neg h] at hno
        rw [if_neg h]
        have hlen2 : (c2 :: rest).length ≤ n := by
          simp only [List.length_cons] at hlen ⊢; omega
        rw [ih (c2 :: rest) (c :: acc) hlen2 hno]
        simp

lemma splitCRLFAux_len_pos (n : Nat) :
    ∀ (s acc : List Char), s.length ≤ n → 1 ≤ (splitCRLFAux s acc).length := by
  induction n with
  | zero =>
    intro s acc hlen
    cases s with
    | nil => simp [splitCRLFAux]
    | cons c t => simp at hlen
  | succ n ih =>
    intro s acc hlen
    match s with
    | [] => simp [splitCRLFAux]
    | [c] => simp [splitCRLFAux]
    | c :: c2 :: rest =>
      simp only [splitCRLFAux]
      by_cases h : c = '\r' ∧ c2 = '\n'
      · rw [if_pos h]; simp
      · rw [if_neg h]
        have hlen2 : (c2 :: rest).length ≤ n := by
          simp only [List.length_cons] at hlen ⊢; omega
        exact ih (c2 :: rest) (c :: acc) hlen2

lemma splitCRLFAux_crlf_len (n : Nat) :
    ∀ (s acc : List Char), s.length ≤ n → containsCRLF s = true →
    2 ≤ (splitCRLFAux s acc).length := by
  induction n with
  | zero =>
    intro s acc hlen hyes
    cases s with
    | nil => simp [containsCRLF] at hyes
    | cons c t => simp at hlen
  | succ n ih =>
    intro s acc hlen hyes
    match s with
    | [] => simp [containsCRLF] at hyes
    | [c] => simp [containsCRLF] at hyes
    | c :: c2 :: rest =>
      simp only [containsCRLF] at hyes
      simp only [splitCRLFAux]
      by_cases h : c = '\r' ∧ c2 = '\n'
      · rw [if_pos h]
        simp only [List.length_cons]
        have := splitCRLFAux_len_pos rest.length rest [] (le_refl _)
        omega
      · rw [if_neg h] at hyes
        rw [if_neg h]
        have hlen2 : (c2 :: rest).length ≤ n := by
          simp only [List.length_cons] at hlen ⊢; omega
        exact ih (c2 :: rest) (c :: acc) hlen2 hyes

lemma splitCRLF_nocrlf_get1 (s : String) (h : containsCRLF s.data = false) :
    List.get? (splitCRLF s) 1 = none := by
  unfold splitCRLF
  rw [splitCRLFAux_nocrlf s.data.length s.data [] (le_refl _) h]
  rfl

lemma splitCRLF_crlf_len (s : String) (h : containsCRLF s.data = true) :
    2 ≤ (splitCRLF s).length := by
  unfold splitCRLF
  rw [List.length_map]
  exact splitCRLFAux_crlf_len s.data.length s.data [] (le_refl _) h

lemma checkStatusLoop_safe (env : Env) (name : component) (st : Bool) :
    ∀ pods : List Pod,
    (∀ p, p ∈ pods → ∀ out,
       env.exec p.name name.name (statusCmd name) = Except.ok out →
       containsCRLF out.data = true) →
    checkStatusLoop env name st pods ≠ none := by
  intro pods
  induction pods with
  | nil => intro _ h; simp [checkStatusLoop] at h
  | cons p rest ih =>
    intro hcr h
    rw [checkStatusLoop] at h
    by_cases hrun : p.running
    · rw [if_pos hrun] at h
      cases hex : env.exec p.name name.name (statusCmd name) with
      | error e => rw [hex] at h; simp at h
      | ok out =>
        simp only [hex] at h
        have hlen := splitCRLF_crlf_len out
          (hcr p (List.mem_cons_self p rest) out hex)
        cases hg : List.get? (splitCRLF out) 1 with
        | none =>
          rw [List.get?_eq_none] at hg
          omega
        | some second =>
          simp only [hg] at h
          by_cases hb : st = decide ((8 : Int) < goAtoi second)
          · rw [if_pos hb] at h
            exact ih (fun q hq => hcr q (List.mem_cons_of_mem p hq)) h
          · rw [if_neg hb] at h; simp at h
    · rw [if_neg hrun] at h
      exact ih (fun q hq => hcr q (List.mem_cons_of_mem p hq)) h

/-- Claim C10: the status check of Check/Back/Restore splits the probe's
captured stdout on CR LF and reads index 1 of the split result without a
bounds check: when the stdout contains no CR LF (for instance the empty
output of a successful exec) the split has exactly one element and the
access is out of range (modelled as the `none` outcome of checkStatus);
the check is safe exactly under the precondition that every probe output
contains a CR LF, i.e. at least two CR-LF-separated fields. -/
theorem checkStatus_split_index_unsafe :
    (∀ s : String, containsCRLF s.data = false →
       List.get? (splitCRLF s) 1 = none) ∧
    (∀ s : String, containsCRLF s.data = true → 2 ≤ (splitCRLF s).length) ∧
    (∀ (env : Env) (name : component) (st : Bool) (pod : Pod) (out : String),
       env.listPods name = Except.ok [pod] → pod.running = true →
       env.exec pod.name name.name (statusCmd name) = Except.ok out →
       containsCRLF out.data = false →
       checkStatus env name st = none) ∧
    (∀ (env : Env) (name : component) (st : Bool) (pods : List Pod),
       env.listPods name = Except.ok pods →
       (∀ p, p ∈ pods → ∀ out,
          env.exec p.name name.name (statusCmd name) = Except.ok out →
          containsCRLF out.data = true) →
       checkStatus env name st ≠ none) := by
  refine ⟨splitCRLF_nocrlf_get1, splitCRLF_crlf_len, ?_, ?_⟩
  · intro env name st pod out hlist hrun hex hno
    unfold checkStatus
    rw [hlist]
    simp only [checkStatusLoop, hrun, if_true, hex,
      splitCRLF_nocrlf_get1 out hno]
  · intro env name st pods hlist hcr
    unfold checkStatus
    rw [hlist]
    exact checkStatusLoop_safe env name st pods hcr

/-- Witness for claim C10 at a concrete input: one running TiKV pod
whose status probe succeeds with empty stdout makes checkStatus hit the
out-of-range access. -/
theorem checkStatus_split_index_unsafe_w :
    checkStatus cEnvP component.TiKV true = none :=
  checkStatus_split_index_unsafe.2.2.1 cEnvP component.TiKV true
    ⟨"tikv-0", true⟩ "" rfl rfl rfl rfl

/-! Lemmas about the exec gateway retry loop. -/

lemma countCalls_execAttempts (ch : Nat → Except String String) :
    ∀ (fuel i : Nat), countCalls (execAttempts ch i fuel).1 ≤ fuel := by
  intro fuel
  induction fuel with
  | zero => intro i; simp [execAttempts, countCalls]
  | succ f ih =>
    intro i
    simp only [execAttempts]
    cases h : ch i with
    | ok out => simp [countCalls]
    | error e =>
      have h2 := ih (i + 1)
      simp [countCalls, List.countP_cons] at h2 ⊢
      omega

lemma execAttempts_all_fail (ch : Nat → Except String String) :
    ∀ (n i : Nat),
    (∀ k, k < n → ∃ e, ch (i + k) = Except.error e) →
    execAttempts ch i n = (failRun i n, Except.error "exec failed") := by
  intro n
  induction n with
  | zero => intro i _; simp [execAttempts, failRun]
  | succ f ih =>
    intro i h
    obtain ⟨e, he⟩ := h 0 (Nat.succ_pos f)
    rw [Nat.add_zero] at he
    simp only [execAttempts, he]
    rw [ih (i + 1) ?_]
    · simp [failRun]
    · intro k hk
      obtain ⟨e2, he2⟩ := h (k + 1) (by omega)
      refine ⟨e2, ?_⟩
      have harith : i + 1 + k = i + (k + 1) := by omega
      rw [harith]
      exact he2

lemma execAttempts_first_ok (ch : Nat → Except String String) :
    ∀ (j i fuel : Nat) (out : String),
    j < fuel → (∀ k, k < j → ∃ e, ch (i + k) = Except.error e) →
    ch (i + j) = Except.ok out →
    execAttempts ch i fuel =
      (failRun i j ++ [GEvent.call (i + j)], Except.ok out) := by
  intro j
  induction j with
  | zero =>
    intro i fuel out hf _ hok
    rw [Nat.add_zero] at hok ⊢
    cases fuel with
    | zero => omega
    | succ f => simp [execAttempts, hok, failRun]
  | succ j ih =>
    intro i fuel out hf hfail hok
    cases fuel with
    | zero => omega
    | succ f =>
      obtain ⟨e, he⟩ := hfail 0 (Nat.succ_pos j)
      rw [Nat.add_zero] at he
      simp only [execAttempts, he]
      have harith : i + 1 + j = i + (j + 1) := by omega
      rw [ih (i + 1) f out (by omega) ?_ ?_]
      · simp only [failRun, harith, List.cons_append]
      · intro k hk
        obtain ⟨e2, he2⟩ := hfail (k + 1) (by omega)
        refine ⟨e2, ?_⟩
        have : i + 1 + k = i + (k + 1) := by omega
        rw [this]
        exact he2
      · rw [harith]
        exact hok

/-- Claim C9: the exec gateway calls the underlying channel at most
MaxRetry = 5 times; consecutive attempts are separated by exactly one
one-minute sleep; the first successful attempt's captured stdout is
returned; when all 5 attempts fail the gateway returns an error for that
single invocation. -/
theorem exec_gateway_retry_bound :
    (∀ ch, countCalls (execGw ch).1 ≤ MaxRetry) ∧
    (∀ ch (j : Nat) (out : String), j < MaxRetry →
       (∀ k, k < j → ∃ e, ch k = Except.error e) →
       ch j = Except.ok out →
       execGw ch = (failRun 0 j ++ [GEvent.call j], Except.ok out)) ∧
    (∀ ch, (∀ k, k < MaxRetry → ∃ e, ch k = Except.error e) →
       execGw ch = (failRun 0 MaxRetry, Except.error "exec failed")) := by
  refine ⟨fun ch => countCalls_execAttempts ch MaxRetry 0,
    fun ch j out hj hf hok => ?_, fun ch hf => ?_⟩
  · unfold execGw
    have h := execAttempts_first_ok ch j 0 MaxRetry out hj
      (by simpa using hf) (by simpa using hok)
    simpa using h
  · exact execAttempts_all_fail ch MaxRetry 0 (by simpa using hf)

/-- Witness for claim C9 at concrete channels: a channel failing once
then succeeding returns the second attempt's stdout after one sleep; a
channel that always fails exhausts all five attempts and errors. -/
theorem exec_gateway_retry_bound_w :
    execGw chW = ([GEvent.call 0, GEvent.sleepMin, GEvent.call 1],
      Except.ok "out") ∧
    execGw chF = (failRun 0 MaxRetry, Except.error "exec failed") := by
  constructor
  · have h := exec_gateway_retry_bound.2.1 chW 1 "out" (by decide)
      (fun k hk => ⟨"transport", by
        have hk0 : k = 0 := by omega
        rw [hk0]; rfl⟩) rfl
    simpa [failRun] using h
  · exact exec_gateway_retry_bound.2.2 chF (fun k _ => ⟨"transport", rfl⟩)

/-! Lemmas about the fan-out shape of Back and Restore. -/

lemma countTasksFor_map_self (env : Env) (cp : component)
    (cmd : component → List String) (ps : List Pod) :
    countTasksFor cp
      (ps.map fun p =>
        Event.task cp p.name (isOkB (env.exec p.name cp.name (cmd cp)))) =
    ps.length := by
  unfold countTasksFor
  rw [List.countP_map]
  rw [List.countP_eq_length]
  intro p _
  simp

lemma countTasksFor_map_other (env : Env) (c cp : component) (hne : c ≠ cp)
    (cmd : component → List String) (ps : List Pod) :
    countTasksFor cp
      (ps.map fun p =>
        Event.task c p.name (isOkB (env.exec p.name c.name (cmd c)))) = 0 := by
  unfold countTasksFor
  rw [List.countP_map]
  rw [List.countP_eq_zero]
  intro p _
  simp [hne]

lemma countTasksFor_append (cp : component) (a b : List Event) :
    countTasksFor cp (a ++ b) = countTasksFor cp a + countTasksFor cp b := by
  unfold countTasksFor
  exact List.countP_append _ _ _

lemma countTasksFor_cons_precheck (cp c : component) (tr : List Event) :
    countTasksFor cp (Event.precheck c :: tr) = countTasksFor cp tr := by
  unfold countTasksFor
  rw [List.countP_cons]
  rfl

lemma countTasksFor_cons_listRole (cp c : component) (tr : List Event) :
    countTasksFor cp (Event.listRole c :: tr) = countTasksFor cp tr := by
  unfold countTasksFor
  rw [List.countP_cons]
  rfl

lemma countTasksFor_single_barrier (cp : component) :
    countTasksFor cp [Event.barrier] = 0 := rfl

lemma fanOut_tasks_zero (env : Env) (pre : component → Option Bool)
    (cmd : component → List String) :
    ∀ (roles : List component) (tr : List Event) (res : Except String Unit)
      (cp : component),
    fanOut env pre cmd roles = some (tr, res) → cp ∉ roles →
    countTasksFor cp tr = 0 := by
  intro roles
  induction roles with
  | nil =>
    intro tr res cp h _
    simp only [fanOut, Option.some.injEq, Prod.mk.injEq] at h
    rw [← h.1]
    simp [countTasksFor]
  | cons c roles ih =>
    intro tr res cp h hnotin
    have hne : c ≠ cp := fun he => hnotin (he ▸ List.mem_cons_self c roles)
    have hnotin2 : cp ∉ roles := fun hm => hnotin (List.mem_cons_of_mem c hm)
    rw [fanOut] at h
    cases hpre : pre c with
    | none => rw [hpre] at h; simp at h
    | some b =>
      rw [hpre] at h
      cases b with
      | false =>
        simp only [Option.some.injEq, Prod.mk.injEq] at h
        rw [← h.1]
        simp [countTasksFor, hne]
      | true =>
        simp only [] at h
        cases hps : env.listPods c with
        | error e =>
          rw [hps] at h
          simp only [Option.some.injEq, Prod.mk.injEq] at h
          rw [← h.1]
          simp [countTasksFor, hne]
        | ok ps =>
          rw [hps] at h
          cases hrec : fanOut env pre cmd roles with
          | none => rw [hrec] at h; simp at h
          | some pr =>
            rw [hrec] at h
            simp only [Option.some.injEq, Prod.mk.injEq] at h
            rw [← h.1]
            simp only [countTasksFor, List.countP_cons, List.countP_append]
            have h0 := countTasksFor_map_other env c cp hne cmd ps
            have h1 := ih pr.1 pr.2 cp (by rw [hrec]) hnotin2
            unfold countTasksFor at h0 h1
            simp only [h0, h1]
            simp [hne]

lemma fanOut_precheck_fail (env : Env) (pre : component → Option Bool)
    (cmd : component → List String) (cp : component) :
    ∀ (roles rest : List component), cp ∉ roles →
    (∀ c ∈ roles, pre c = some true) →
    (∀ c ∈ roles, ∃ ps, env.listPods c = Except.ok ps) →
    pre cp = some false →
    ∃ tr, fanOut env pre cmd (roles ++ cp :: rest) =
        some (tr, Except.error "check failed") ∧
      countListRole cp tr = 0 ∧ countTasksFor cp tr = 0 := by
  intro roles
  induction roles with
  | nil =>
    intro rest _ _ _ hfail
    refine ⟨[Event.precheck cp], ?_, ?_, ?_⟩
    · simp only [List.nil_append, fanOut, hfail]
    · simp [countListRole]
    · simp [countTasksFor]
  | cons c roles ih =>
    intro rest hnotin hok hlist hfail
    have hce : pre c = some true := hok c (List.mem_cons_self c roles)
    obtain ⟨ps, hps⟩ := hlist c (List.mem_cons_self c roles)
    have hne : c ≠ cp := fun he => hnotin (he ▸ List.mem_cons_self c roles)
    obtain ⟨tr, htr, h1, h2⟩ := ih rest
      (fun hm => hnotin (List.mem_cons_of_mem c hm))
      (fun x hx => hok x (List.mem_cons_of_mem c hx))
      (fun x hx => hlist x (List.mem_cons_of_mem c hx)) hfail
    refine ⟨Event.precheck c :: Event.listRole c ::
      (ps.map fun p =>
        Event.task c p.name (isOkB (env.exec p.name c.name (cmd c)))) ++ tr,
      ?_, ?_, ?_⟩
    · rw [List.cons_append, fanOut, hce, hps, htr]
    · simp only [countListRole, List.countP_cons, List.countP_append,
        List.countP_map] at h1 ⊢
      have hz : (List.countP
          ((fun e => e == Event.listRole cp) ∘ fun p =>
            Event.task c p.name (isOkB (env.exec p.name c.name (cmd c)))) ps) = 0 := by
        rw [List.countP_eq_zero]
        intro p _
        simp
      simp only [hz, h1]
      simp [hne]
    · simp only [countTasksFor, List.countP_cons, List.countP_append]
      have h0 := countTasksFor_map_other env c cp hne cmd ps
      unfold countTasksFor at h0 h2
      simp only [h0, h2]
      simp [hne]

lemma fanOut_all_ok (env : Env) (pre : component → Option Bool)
    (cmd : component → List String) :
    ∀ (roles : List component),
    (∀ c ∈ roles, pre c = some true) →
    (∀ c ∈ roles, ∃ ps, env.listPods c = Except.ok ps) →
    ∃ tr, fanOut env pre cmd roles = some (tr, Except.ok ()) ∧
      ∀ cp ps p, cp ∈ roles → env.listPods cp = Except.ok ps → p ∈ ps →
        Event.task cp p.name (isOkB (env.exec p.name cp.name (cmd cp))) ∈ tr := by
  intro roles
  induction roles with
  | nil =>
    intro _ _
    refine ⟨[Event.barrier], by simp [fanOut], ?_⟩
    intro cp ps p hcp
    simp at hcp
  | cons c roles ih =>
    intro hok hlist
    have hce : pre c = some true := hok c (List.mem_cons_self c roles)
    obtain ⟨ps0, hps0⟩ := hlist c (List.mem_cons_self c roles)
    obtain ⟨tr, htr, hmem⟩ := ih
      (fun x hx => hok x (List.mem_cons_of_mem c hx))
      (fun x hx => hlist x (List.mem_cons_of_mem c hx))
    refine ⟨Event.precheck c :: Event.listRole c ::
      (ps0.map fun p =>
        Event.task c p.name (isOkB (env.exec p.name c.name (cmd c)))) ++ tr,
      ?_, ?_⟩
    · rw [fanOut, hce, hps0, htr]
    · intro cp ps p hcp hps hp
      rcases List.mem_cons.mp hcp with hceq | hmem2
      · subst hceq
        have hps1 : ps = ps0 := by
          rw [hps0] at hps
          cases hps
          rfl
        subst hps1
        refine List.mem_cons_of_mem _ (List.mem_cons_of_mem _ ?_)
        exact List.mem_append_left _ (List.mem_map_of_mem _ hp)
      · refine List.mem_cons_of_mem _ (List.mem_cons_of_mem _ ?_)
        exact List.mem_append_right _ (hmem cp ps p hmem2 hps hp)

lemma fanOut_ok_shape (env : Env) (pre : component → Option Bool)
    (cmd : component → List String) :
    ∀ (roles : List component) (tr : List Event), roles.Nodup →
    fanOut env pre cmd roles = some (tr, Except.ok ()) →
    (∃ tr0, tr = tr0 ++ [Event.barrier] ∧ countBarrier tr0 = 0) ∧
    (∀ cp ps, cp ∈ roles → env.listPods cp = Except.ok ps →
       countTasksFor cp tr = ps.length) := by
  intro roles
  induction roles with
  | nil =>
    intro tr _ h
    simp only [fanOut, Option.some.injEq, Prod.mk.injEq] at h
    refine ⟨⟨[], by rw [← h.1]; simp [countBarrier]⟩, ?_⟩
    intro cp ps hcp
    simp at hcp
  | cons c roles ih =>
    intro tr hnodup h
    have hcnot : c ∉ roles := (List.nodup_cons.mp hnodup).1
    have hnodup2 : roles.Nodup := (List.nodup_cons.mp hnodup).2
    rw [fanOut] at h
    cases hpre : pre c with
    | none => rw [hpre] at h; simp at h
    | some b =>
      rw [hpre] at h
      cases b with
      | false => simp at h
      | true =>
        simp only [] at h
        cases hps : env.listPods c with
        | error e => rw [hps] at h; simp at h
        | ok ps0 =>
          rw [hps] at h
          cases hrec : fanOut env pre cmd roles with
          | none => rw [hrec] at h; simp at h
          | some pr =>
            rw [hrec] at h
            simp only [Option.some.injEq, Prod.mk.injEq] at h
            have hres : pr.2 = Except.ok () := h.2
            have hpr : fanOut env pre cmd roles = some (pr.1, Except.ok ()) := by
              rw [hrec, ← hres]
            obtain ⟨⟨tr0, htr0, hbar0⟩, hcount⟩ := ih pr.1 hnodup2 hpr
            constructor
            · refine ⟨Event.precheck c :: Event.listRole c ::
                (ps0.map fun p => Event.task c p.name
                  (isOkB (env.exec p.name c.name (cmd c)))) ++ tr0, ?_, ?_⟩
              · rw [← h.1, htr0]
                simp
              · simp only [countBarrier, List.countP_cons, List.countP_append]
                unfold countBarrier at hbar0
                have hzb : List.countP (fun e => e == Event.barrier)
                    (ps0.map fun p => Event.task c p.name
                      (isOkB (env.exec p.name c.name (cmd c)))) = 0 := by
                  rw [List.countP_eq_zero]
                  intro x hx
                  obtain ⟨p, _, hpx⟩ := List.mem_map.mp hx
                  rw [← hpx]
                  simp
                simp [hzb, hbar0]
            · intro cp ps hcp hps2
              rw [← h.1, htr0]
              rcases List.mem_cons.mp hcp with hceq | hmem2
              · subst hceq
                have hps1 : ps = ps0 := by
                  rw [hps] at hps2
                  cases hps2
                  rfl
                subst hps1
                have hz1 := fanOut_tasks_zero env pre cmd roles pr.1 pr.2 cp
                  hrec hcnot
                rw [htr0, countTasksFor_append,
                  countTasksFor_single_barrier] at hz1
                simp only [countTasksFor_cons_precheck, countTasksFor_cons_listRole,
                  countTasksFor_append, countTasksFor_append,
                  countTasksFor_map_self, countTasksFor_single_barrier]
                omega
              · have hne : c ≠ cp := fun he => hcnot (he ▸ hmem2)
                have hc2 := hcount cp ps hmem2 hps2
                rw [htr0, countTasksFor_append,
                  countTasksFor_single_barrier] at hc2
                simp only [countTasksFor_cons_precheck, countTasksFor_cons_listRole,
                  countTasksFor_append, countTasksFor_append,
                  countTasksFor_map_other env c cp hne,
                  countTasksFor_single_barrier]
                omega

/-- Claim C1 (counterexample): on a quiesced two-role cluster with one
pod per role, Back spawns the PD task with no barrier between it and the
TiKV task — the claimed per-role barrier property is false, even though
both roles do spawn one task per listed pod.  The single Wait() sits
after the loop over all roles. -/
theorem back_no_per_role_barrier_cex :
    Back cEnvA "5.2" = some (trA, Except.ok ()) ∧
    perRoleBarrierB trA = false ∧
    countTasksFor component.TiKV trA = 1 ∧
    countTasksFor component.PD trA = 1 :=
  ⟨rfl, by decide, by decide, by decide⟩

/-- Claim C1 (amended): Back and Restore spawn one exec task per pod
listed for each role, but join all tasks at one single barrier at the
end of the call: a successful trace is some prefix with no barrier
followed by the one final barrier, and the number of tasks of each role
in the trace equals the number of pods listed for that role; the call
advances to the next role without waiting for the previous role's
tasks. -/
theorem back_restore_single_final_barrier :
    (∀ (env : Env) (v : String) (tr : List Event),
       Back env v = some (tr, Except.ok ()) →
       (∃ tr0, tr = tr0 ++ [Event.barrier] ∧ countBarrier tr0 = 0) ∧
       (∀ cp ps, cp ∈ backupScope → env.listPods cp = Except.ok ps →
          countTasksFor cp tr = ps.length)) ∧
    (∀ (env : Env) (v : String) (tr : List Event),
       Restore env v = some (tr, Except.ok ()) →
       (∃ tr0, tr = tr0 ++ [Event.barrier] ∧ countBarrier tr0 = 0) ∧
       (∀ cp ps, cp ∈ backupScope → env.listPods cp = Except.ok ps →
          countTasksFor cp tr = ps.length)) := by
  constructor
  · intro env v tr h
    exact fanOut_ok_shape env _ _ backupScope tr (by decide) h
  · intro env v tr h
    exact fanOut_ok_shape env _ _ backupScope tr (by decide) h

/-- Witness for the amended claim C1 at a concrete input: the Back trace
on cEnvA ends in its only barrier and holds one task per listed pod of
each role. -/
theorem back_restore_single_final_barrier_w :
    countTasksFor component.TiKV trA = 1 ∧
    countTasksFor component.PD trA = 1 ∧
    (∃ tr0, trA = tr0 ++ [Event.barrier] ∧ countBarrier tr0 = 0) := by
  obtain ⟨hbar, hcount⟩ :=
    back_restore_single_final_barrier.1 cEnvA "5.2" trA rfl
  refine ⟨?_, ?_, hbar⟩
  · have h := hcount component.TiKV [⟨"tikv-0", true⟩] (by decide) rfl
    simpa using h
  · have h := hcount component.PD [⟨"pd-0", true⟩] (by decide) rfl
    simpa using h

/-- Claim C4: whenever the roles before cp in the backup scope pass
their quiesced pre-check and pod listing, but cp's status probe reports
it running (checkStatus with expected status false returns false), Back
returns the precondition error "check failed" with no pod-listing event
and no backup exec task for cp in the trace. -/
theorem back_precheck_abort (env : Env) (v : String)
    (roles rest : List component) (cp : component)
    (hsplit : backupScope = roles ++ cp :: rest)
    (hok : ∀ c ∈ roles, checkStatus env c false = some true)
    (hlist : ∀ c ∈ roles, ∃ ps, env.listPods c = Except.ok ps)
    (hfail : checkStatus env cp false = some false) :
    ∃ tr, Back env v = some (tr, Except.error "check failed") ∧
      countListRole cp tr = 0 ∧ countTasksFor cp tr = 0 := by
  have hnodup : (roles ++ cp :: rest).Nodup := by
    rw [← hsplit]; decide
  have hnotin : cp ∉ roles := by
    rcases List.nodup_append.mp hnodup with ⟨_, _, hdisj⟩
    intro hmem
    exact hdisj hmem (List.mem_cons_self cp rest)
  unfold Back
  rw [hsplit]
  exact fanOut_precheck_fail env _ _ cp roles rest hnotin hok hlist hfail

/-- Witness for claim C4 at a concrete input: on cEnvR the TiKV probe
reports 12 command-line tokens (running), and Back aborts at once. -/
theorem back_precheck_abort_w :
    Back cEnvR "5.2" =
      some ([Event.precheck component.TiKV], Except.error "check failed") ∧
    countListRole component.TiKV [Event.precheck component.TiKV] = 0 ∧
    countTasksFor component.TiKV [Event.precheck component.TiKV] = 0 := by
  obtain ⟨tr, htr, h1, h2⟩ := back_precheck_abort cEnvR "5.2" []
    [component.PD] component.TiKV rfl
    (fun c hc => absurd hc (List.not_mem_nil c))
    (fun c hc => absurd hc (List.not_mem_nil c)) rfl
  have heq : tr = [Event.precheck component.TiKV] := by
    have hconcrete : Back cEnvR "5.2" =
        some ([Event.precheck component.TiKV],
          Except.error "check failed") := rfl
    rw [hconcrete] at htr
    cases htr
    rfl
  subst heq
  exact ⟨htr ▸ rfl, h1, h2⟩

/-- Claim C6: whenever every role in backup scope passes its quiesced
pre-check and its pod listing succeeds, Back returns success — with no
assumption at all on the per-pod exec outcomes — and every listed pod of
every role has its own exec task in the trace, carrying that pod's own
exec result; a failed exec on one pod neither removes sibling tasks nor
changes the success result. -/
theorem back_best_effort_per_pod (env : Env) (v : String)
    (hchk : ∀ cp ∈ backupScope, checkStatus env cp false = some true)
    (hlist : ∀ cp ∈ backupScope, ∃ ps, env.listPods cp = Except.ok ps) :
    ∃ tr, Back env v = some (tr, Except.ok ()) ∧
      ∀ cp ps p, cp ∈ backupScope → env.listPods cp = Except.ok ps →
        p ∈ ps →
        Event.task cp p.name
          (isOkB (env.exec p.name cp.name ["sh", "-c", cp.BackExecCmd v]))
          ∈ tr :=
  fanOut_all_ok env _ _ backupScope hchk hlist

/-- Witness for claim C6 at a concrete input: on cEnvF the exec on pod
tikv-1 fails, yet Back succeeds and both TiKV pods' tasks are present in
the trace (tikv-1's with a failed exec result). -/
theorem back_best_effort_per_pod_w :
    cEnvF.exec "tikv-1" "tikv"
      ["sh", "-c", component.TiKV.BackExecCmd "5.2"] =
      Except.error "boom" ∧
    ∃ tr, Back cEnvF "5.2" = some (tr, Except.ok ()) ∧
      Event.task component.TiKV "tikv-1" false ∈ tr ∧
      Event.task component.TiKV "tikv-0" true ∈ tr := by
  refine ⟨rfl, ?_⟩
  obtain ⟨tr, htr, hmem⟩ := back_best_effort_per_pod cEnvF "5.2"
    (by intro cp hcp; fin_cases hcp <;> rfl)
    (by intro cp hcp; fin_cases hcp
        · exact ⟨[⟨"tikv-0", true⟩, ⟨"tikv-1", true⟩], rfl⟩
        · exact ⟨[⟨"pd-0", true⟩], rfl⟩)
  refine ⟨tr, htr, ?_, ?_⟩
  · have h := hmem component.TiKV [⟨"tikv-0", true⟩, ⟨"tikv-1", true⟩]
      ⟨"tikv-1", true⟩ (by decide) rfl (by decide)
    simpa using h
  · have h := hmem component.TiKV [⟨"tikv-0", true⟩, ⟨"tikv-1", true⟩]
      ⟨"tikv-0", true⟩ (by decide) rfl (by decide)
    simpa using h

/-! Lemmas about Stop. -/

lemma annotateLoop_fail (env : Env) :
    ∀ (pods : List Pod) (p : Pod), p ∈ pods →
    isOkU (env.updatePod p.name) = false →
    isOkU (annotateLoop env pods).2 = false := by
  intro pods
  induction pods with
  | nil => intro p hp; simp at hp
  | cons q rest ih =>
    intro p hp hf
    rw [annotateLoop]
    cases hu : env.updatePod q.name with
    | error e => rfl
    | ok _ =>
      rcases List.mem_cons.mp hp with hpq | hmem
      · subst hpq
        rw [hu] at hf
        simp [isOkU] at hf
      · exact ih p hmem hf

lemma countKills_annotateLoop (env : Env) :
    ∀ pods : List Pod, countKills (annotateLoop env pods).1 = 0 := by
  intro pods
  induction pods with
  | nil => rfl
  | cons q rest ih =>
    rw [annotateLoop]
    cases hu : env.updatePod q.name with
    | error e => rfl
    | ok _ =>
      simp only [countKills, List.countP_cons] at ih ⊢
      simpa using ih

lemma countAnns_killLoop (env : Env) (name : component) :
    ∀ pods : List Pod, countAnns (killLoop env name pods).1 = 0 := by
  intro pods
  induction pods with
  | nil => rfl
  | cons q rest ih =>
    rw [killLoop]
    by_cases hrun : q.running
    · rw [if_pos hrun]
      cases hx : env.exec q.name name.name ["sh", "-c", "kill 1"] with
      | error e => rfl
      | ok _ =>
        simp only [countAnns, List.countP_cons] at ih ⊢
        simpa using ih
    · rw [if_neg hrun]
      exact ih

lemma countAnns_append (a b : List Event) :
    countAnns (a ++ b) = countAnns a + countAnns b := by
  unfold countAnns
  exact List.countP_append _ _ _

lemma countKills_cons_listAll (tr : List Event) :
    countKills (Event.listAll :: tr) = countKills tr := by
  unfold countKills
  rw [List.countP_cons]
  rfl

lemma countAnns_cons_listRole (cp : component) (tr : List Event) :
    countAnns (Event.listRole cp :: tr) = countAnns tr := by
  unfold countAnns
  rw [List.countP_cons]
  rfl

lemma countAnns_killCompLoop (env : Env) :
    ∀ roles : List component, countAnns (killCompLoop env roles).1 = 0 := by
  intro roles
  induction roles with
  | nil => rfl
  | cons cp rest ih =>
    have hcomp : countAnns (killComp env cp).1 = 0 := by
      unfold killComp
      cases hps : env.listPods cp with
      | error e => rfl
      | ok pods =>
        have h := countAnns_killLoop env cp pods
        exact (countAnns_cons_listRole cp (killLoop env cp pods).1).trans h
    rw [killCompLoop]
    cases hk : killComp env cp with
    | mk tr res =>
      rw [hk] at hcomp
      cases res with
      | error e => exact hcomp
      | ok _ =>
        rw [countAnns_append]
        rw [ih]
        simpa using hcomp

/-- Claim C7: a failed debug-annotation update on any single pod of the
namespace makes Stop return an error with no kill command executed on
any pod of any role; moreover in every Stop trace all annotation events
precede all kill commands (the trace splits into a kill-free prefix and
an annotation-free suffix). -/
theorem stop_annotate_failure_aborts :
    (∀ (env : Env) (pods : List Pod) (p : Pod),
       env.listAllPods = Except.ok pods → p ∈ pods →
       isOkU (env.updatePod p.name) = false →
       isOkU (Stop env).2 = false ∧ countKills (Stop env).1 = 0) ∧
    (∀ env : Env, ∃ a b, (Stop env).1 = a ++ b ∧
       countKills a = 0 ∧ countAnns b = 0) := by
  constructor
  · intro env pods p hlist hp hf
    have hfail := annotateLoop_fail env pods p hp hf
    have hkills := countKills_annotateLoop env pods
    cases hann : annotateLoop env pods with
    | mk tr res =>
      rw [hann] at hfail hkills
      cases res with
      | error e =>
        have hstop : Stop env = (Event.listAll :: tr, Except.error e) := by
          unfold Stop
          simp only [hlist, hann]
        rw [hstop]
        constructor
        · rfl
        · have hk2 : countKills tr = 0 := hkills
          exact (countKills_cons_listAll tr).trans hk2
      | ok _ => simp [isOkU] at hfail
  · intro env
    cases hlist : env.listAllPods with
    | error e =>
      have hstop : Stop env = ([Event.listAll], Except.error e) := by
        unfold Stop
        simp only [hlist]
      refine ⟨[Event.listAll], [], by rw [hstop]; rfl, by rfl, by rfl⟩
    | ok pods =>
      have hkills := countKills_annotateLoop env pods
      cases hann : annotateLoop env pods with
      | mk tr res =>
        rw [hann] at hkills
        have hk2 : countKills tr = 0 := hkills
        cases res with
        | error e =>
          have hstop : Stop env = (Event.listAll :: tr, Except.error e) := by
            unfold Stop
            simp only [hlist, hann]
          refine ⟨Event.listAll :: tr, [], by rw [hstop]; simp, ?_, by rfl⟩
          exact (countKills_cons_listAll tr).trans hk2
        | ok _ =>
          have hstop : Stop env =
              (Event.listAll :: tr ++ (killCompLoop env stopOrder).1,
               (killCompLoop env stopOrder).2) := by
            unfold Stop
            simp only [hlist, hann]
          refine ⟨Event.listAll :: tr, (killCompLoop env stopOrder).1,
            by rw [hstop], ?_, countAnns_killCompLoop env stopOrder⟩
          exact (countKills_cons_listAll tr).trans hk2

/-- Witness for claim C7 at a concrete input: on cEnvStop the update of
pod b-0 fails, Stop errors and its trace holds no kill event. -/
theorem stop_annotate_failure_aborts_w :
    isOkU (Stop cEnvStop).2 = false ∧ countKills (Stop cEnvStop).1 = 0 :=
  stop_annotate_failure_aborts.1 cEnvStop
    [⟨"a-0", true⟩, ⟨"b-0", true⟩] ⟨"b-0", true⟩ rfl (by decide) rfl

/-- Claim C5: BackExecCmd for TiKV and version "5.2" renders, in order,
the removal of /var/lib/tikv/5.2.bat, its re-creation with mkdir, and a
verbose copy of every entry of /var/lib/tikv except those matching the
backup pattern and the placeholder file into it, and the script text is
written to and executed from /var/lib/tikv/back_5.2.sh. -/
theorem back_script_tikv_52 :
    component.BackExecCmd component.TiKV "5.2" =
      "echo \"" ++ String.intercalate ";"
        ["rm -rf /var/lib/tikv/5.2.bat",
         "mkdir -p /var/lib/tikv/5.2.bat",
         "cd /var/lib/tikv;/bin/cp -rf \\\x60ls -A | grep -vE \x27bat|space_placeholder_file\x27\\\x60 /var/lib/tikv/5.2.bat -v"]
      ++ "\" > /var/lib/tikv/back_5.2.sh;sh /var/lib/tikv/back_5.2.sh" := rfl

/-- Claim C8 (code evaluation at the failing input): on cEnvS the
namespace-wide pod listing fails, yet Start does not return that error:
the source only logs it, iterates the empty pod list of the failed
response, and proceeds to delete every running pod of every role,
returning success. -/
theorem start_ignores_discovery_error :
    cEnvS.listAllPods = Except.error "boom" ∧
    Start cEnvS = ([Event.listAll,
      Event.listRole component.PD, Event.delPod "pd-0",
      Event.listRole component.TiKV, Event.delPod "tikv-0",
      Event.listRole component.TiDB, Event.delPod "tidb-0"],
      Except.ok ()) :=
  ⟨rfl, rfl⟩

/-- Claim C3 (code evaluation at the failing input): a pod whose list
probe prints the backup directory "5.2.bat" has the version reported by
List as "5.2.bat" — the on-disk ".bat" suffix is not stripped, because
the source trims the non-matching suffix ".back" instead. -/
theorem list_keeps_bat_suffix :
    ListOp cEnvA =
      Except.ok [("tikv-0", ["5.2.bat"]), ("pd-0", ["5.2.bat"])] ∧
    ".bat".data.isSuffixOf "5.2.bat".data = true ∧
    goTrimSuffix "5.2.bat" ".back" = "5.2.bat" :=
  ⟨rfl, rfl, rfl⟩

/-- Claim C2 (code evaluation at the failing input): version "9.9" is
listed by no pod of cEnvA, yet check returns true for both roles in
scope and Restore "9.9" proceeds to run the restore exec task on every
pod and returns success — the missing-version pre-check never aborts,
because the source's check function discards the checkVersion result. -/
theorem restore_missing_version_not_aborted :
    ListOp cEnvA =
      Except.ok [("tikv-0", ["5.2.bat"]), ("pd-0", ["5.2.bat"])] ∧
    (["5.2.bat"].contains "9.9") = false ∧
    checkVersion cEnvA "9.9" = false ∧
    check cEnvA component.TiKV "9.9" false = some true ∧
    check cEnvA component.PD "9.9" false = some true ∧
    Restore cEnvA "9.9" =
      some ([Event.precheck component.TiKV, Event.listRole component.TiKV,
        Event.task component.TiKV "tikv-0" true,
        Event.precheck component.PD, Event.listRole component.PD,
        Event.task component.PD "pd-0" true, Event.barrier],
        Except.ok ()) :=
  ⟨rfl, rfl, rfl, rfl, rfl, rfl⟩
